import Mathlib

/-!
Verification of the `AIAnalyzer` analysis-and-proposal pipeline (`lib/ai-analyzer.ts`).

The TypeScript source is shallowly embedded:
* JavaScript numbers are modelled as rationals (`ℚ`); `Math.round` is
  `⌊x + 1/2⌋`, which agrees with the JS semantics of rounding half toward +∞.
* Every LLM call is modelled by an oracle parameter giving the call's outcome
  (`Except` for calls whose failure the source observes via `try`/`catch`).
* Wall-clock fields of `TransferProposal` (`processingTime`, `timestamp`) are
  not modelled; `aiModel` is the constant `"openai"` as in the source.
* JavaScript's stable `Array.prototype.sort` with comparator
  `([, a], [, b]) => b - a` is `List.mergeSort` with `b.2 ≤ a.2`.
-/

namespace Disperse

/-- JS `String.prototype.trim` on the character list of a string. -/
def trimChars (cs : List Char) : List Char :=
  ((cs.dropWhile Char.isWhitespace).reverse.dropWhile Char.isWhitespace).reverse

/-- JS `Math.round` on rationals: round half toward +∞. -/
def jsRound (q : ℚ) : ℤ := ⌊q + 1/2⌋

/-- Two-decimal rounding `Math.round(q * 100) / 100` used by the source. -/
def round2 (q : ℚ) : ℚ := (jsRound (q * 100) : ℚ) / 100

/-- Predicate: `q` is an exact two-decimal value, an integer number of hundredths. -/
def hasTwoDecimals (q : ℚ) : Prop := ∃ n : ℤ, q = (n : ℚ) / 100

instance (q : ℚ) : Decidable (hasTwoDecimals q) :=
  decidable_of_iff ((q * 100).den = 1) (by
    constructor
    · intro h
      refine ⟨(q * 100).num, ?_⟩
      have h2 : ((q * 100).num : ℚ) = q * 100 :=
        Rat.coe_int_num_of_den_eq_one h
      rw [h2]
      ring
    · rintro ⟨n, rfl⟩
      have h3 : (n : ℚ) / 100 * 100 = (n : ℚ) := by ring
      rw [h3]
      exact Rat.den_intCast n)

/-! ### Data model (`types/employee.ts`, `types/proposal.ts`) -/

/-- Record `Employee` (`types/employee.ts`); `rawData` is not modelled. -/
structure Employee where
  id : String
  name : String
  department : String
  position : String
  personality : String
  experience : String
  aspirations : String
  skills : List String
  relationships : String
  deriving Repr, DecidableEq

/-- Record `Department` (`types/employee.ts`). -/
structure Department where
  name : String
  description : String
  requiredSkills : List String
  currentMembers : List String
  deriving Repr, DecidableEq

/-- Record `TransferProposal` (`types/proposal.ts`); wall-clock fields omitted. -/
structure TransferProposal where
  employeeId : String
  employeeName : String
  fromDepartment : String
  toDepartment : String
  confidenceScore : ℚ
  reasoning : String
  aiModel : String
  deriving Repr, DecidableEq

/-- Record `EmployeeAnalysis` (`lib/ai-analyzer.ts`): `departmentFit` is the
`Record<string, number>` in `Object.entries` order. -/
structure EmployeeAnalysis where
  employeeId : String
  personalityTraits : List String
  skillCategories : List String
  careerGoals : List String
  strengths : List String
  developmentAreas : List String
  departmentFit : List (String × ℚ)
  deriving Repr, DecidableEq

/-- The `options` sub-object of `AnalysisRequest` (`types/proposal.ts`). -/
structure AnalysisOptions where
  includeReasons : Bool
  confidenceThreshold : ℚ
  maxProposals : Option ℕ
  maxEmployees : Option ℕ
  deriving Repr, DecidableEq

/-- Record `AnalysisRequest` (`types/proposal.ts`); `aiModel` is not used by the analyzer. -/
structure AnalysisRequest where
  employeeIds : Option (List String) := none
  naturalLanguageCondition : Option String := none
  options : Option AnalysisOptions := none
  deriving Repr, DecidableEq

/-! ### Model-call oracles

Each LLM invocation site of `AIAnalyzer` is replaced by an oracle describing
the outcome the source observes after extraction/validation of the reply.
-/

/-- Parsed reply of the candidate-search call in `findCandidatesWithCondition`
(each field read with `|| default`, so absence is `none`). -/
structure CandReply where
  selectedEmployeeIds : Option (List String)
  reasoning : Option String
  suggestions : Option (List String)
  clarificationQuestions : Option (List String)
  deriving Repr, DecidableEq

/-- Parsed reply of the refinement call in `refineCandidate`. -/
structure RefineReply where
  refinedEmployeeIds : Option (List String)
  reasoning : Option String
  nextQuestions : Option (List String)
  deriving Repr, DecidableEq

/-- Oracles for every model call a batch run performs:
`analyze` is the outcome of `this.analyzeEmployee` (after its own retries),
`reasoningReply` the raw content of the reasoning call
(`.error` = the call threw, `.ok none` = missing/null content),
`candOutcome` the outcome of the single `findCandidatesWithCondition` call
(`.error` = the call threw, covering model errors and unparseable output). -/
structure BatchEnv where
  analyze : Employee → Except String EmployeeAnalysis
  reasoningReply : Employee → String → Except String (Option String)
  candOutcome : Except String CandReply

/-! ### `findCandidatesWithCondition` and `filterEmployeesByCondition` -/

/-- Result record of `findCandidatesWithCondition`. -/
structure CandResult where
  candidates : List Employee
  reasoning : String
  suggestions : List String
  clarificationQuestions : Option (List String)
  deriving Repr, DecidableEq

/-- Embeds `findCandidatesWithCondition`: on a parsed reply, the candidates are
`employees.filter((emp) => selectedIds.includes(emp.id))`; a failed call or
unparseable reply rethrows a wrapped error. -/
def findCandidatesWithCondition (outcome : Except String CandReply)
    (employees : List Employee) (_departments : List Department)
    (_condition : String) : Except String CandResult :=
  match outcome with
  | .error m => .error ("候補者の検索に失敗しました: " ++ m)
  | .ok r =>
    let selectedIds := r.selectedEmployeeIds.getD []
    .ok { candidates := employees.filter (fun emp => selectedIds.contains emp.id)
          reasoning := r.reasoning.getD "候補者を選出しました。"
          suggestions := r.suggestions.getD []
          clarificationQuestions := r.clarificationQuestions }

/-- Embeds `filterEmployeesByCondition`: delegates to `findCandidatesWithCondition`
with an empty department list; on any error it logs and returns the whole
input employee list (the condition is silently dropped). -/
def filterEmployeesByCondition (outcome : Except String CandReply)
    (employees : List Employee) (condition : String) : List Employee :=
  match findCandidatesWithCondition outcome employees [] condition with
  | .ok r => r.candidates
  | .error _ => employees

/-! ### Reasoning generation -/

/-- The templated fallback text of `generateTransferReasoning`. -/
def reasoningTemplate (employee : Employee) (toDept : String) : String :=
  employee.name ++ "さんのスキルと適性を考慮した結果、" ++ toDept ++
    "への異動が適切と判断されました。"

/-- Embeds `generateTransferReasoning`: templated text when `includeReasons` is
falsy; otherwise the model reply's content, falling back to the template when
the call fails or the content is falsy. -/
def generateTransferReasoning (env : BatchEnv) (employee : Employee)
    (_analysis : EmployeeAnalysis) (_fromDept toDept : String)
    (options : AnalysisRequest) : String :=
  if !((options.options.map (·.includeReasons)).getD false) then
    reasoningTemplate employee toDept
  else
    match env.reasoningReply employee toDept with
    | .ok (some c) => if c = "" then reasoningTemplate employee toDept else c
    | .ok none => reasoningTemplate employee toDept
    | .error _ => reasoningTemplate employee toDept

/-! ### Batch-mode proposal generation -/

/-- The sort comparator `([, a], [, b]) => b - a` of the source: descending
by fit score (`x` may precede `y` iff `y.2 ≤ x.2`), applied stably. -/
def fitDescending (x y : String × ℚ) : Bool := decide (y.2 ≤ x.2)

/-- Embeds `generateEmployeeTransferProposal`: keep `departmentFit` entries whose
department differs from the employee's and whose score exceeds 0.6, sort
descending by score (stable), take the top 3; `none` when no candidate
remains, otherwise a proposal for the top entry with the score rounded to
two decimals. -/
def generateEmployeeTransferProposal (env : BatchEnv) (employee : Employee)
    (analysis : EmployeeAnalysis) (_departments : List Department)
    (options : AnalysisRequest) : Option TransferProposal :=
  let currentDept := employee.department
  let candidateDepartments :=
    ((analysis.departmentFit.filter
        (fun p => p.1 ≠ currentDept ∧ p.2 > 0.6)).mergeSort fitDescending).take 3
  match candidateDepartments with
  | [] => none
  | best :: _ =>
    some { employeeId := employee.id
           employeeName := employee.name
           fromDepartment := currentDept
           toDepartment := best.1
           confidenceScore := round2 best.2
           reasoning := generateTransferReasoning env employee analysis
             currentDept best.1 options
           aiModel := "openai" }

/-- State threaded through the batch loop: accumulated proposals plus the
`successCount` and `errorCount` counters of the source. -/
structure BatchState where
  proposals : List TransferProposal
  successCount : ℕ
  errorCount : ℕ
  deriving Repr, DecidableEq

/-- One iteration of the batch loop of `generateTransferProposals`:
a failed analysis is caught and counted; a `null` proposal is skipped. -/
def batchStep (env : BatchEnv) (departments : List Department)
    (options : AnalysisRequest) (st : BatchState) (employee : Employee) :
    BatchState :=
  match env.analyze employee with
  | .error _ => { st with errorCount := st.errorCount + 1 }
  | .ok analysis =>
    match generateEmployeeTransferProposal env employee analysis departments
        options with
    | some p =>
      { st with proposals := st.proposals ++ [p]
                successCount := st.successCount + 1 }
    | none => st

/-- The id-filter step of `generateTransferProposals`: restrict to
`options.employeeIds` when given. -/
def idFiltered (employees : List Employee) (options : AnalysisRequest) :
    List Employee :=
  match options.employeeIds with
  | some ids => employees.filter (fun emp => ids.contains emp.id)
  | none => employees

/-- The target-employee narrowing of `generateTransferProposals`: the id
filter, then the natural-language pre-filter when the condition is truthy
after trimming. -/
def batchTargets (env : BatchEnv) (employees : List Employee)
    (options : AnalysisRequest) : List Employee :=
  let byId := idFiltered employees options
  match options.naturalLanguageCondition with
  | some c =>
    if trimChars c.data ≠ [] then
      filterEmployeesByCondition env.candOutcome byId c
    else byId
  | none => byId

/-- Embeds `generateTransferProposals`: narrow the employee list, then fold the
per-employee step over it sequentially. Returns the final loop state
(the source returns `proposals` and logs the counters). -/
def generateTransferProposals (env : BatchEnv) (employees : List Employee)
    (departments : List Department) (options : AnalysisRequest) : BatchState :=
  (batchTargets env employees options).foldl
    (batchStep env departments options) ⟨[], 0, 0⟩

/-! ### Targeted-mode proposal generation -/

/-- The templated fallback text of `generateTargetedTransferReasoning`. -/
def targetedTemplate (employee : Employee) (targetDepartment : String) :
    String :=
  employee.name ++ "さんは指定された条件に適合し、" ++ targetDepartment ++
    "での活躍が期待されます。"

/-- Embeds `generateTargetedTransferReasoning`: always calls the model; falls back
to the template when the call fails or the content is falsy. -/
def generateTargetedTransferReasoning (env : BatchEnv) (employee : Employee)
    (_analysis : EmployeeAnalysis) (targetDepartment : String)
    (_condition : String) (_options : AnalysisRequest) : String :=
  match env.reasoningReply employee targetDepartment with
  | .ok (some c) => if c = "" then targetedTemplate employee targetDepartment
                    else c
  | .ok none => targetedTemplate employee targetDepartment
  | .error _ => targetedTemplate employee targetDepartment

/-- Embeds `employeeAnalysis.departmentFit[targetDepartment] || 0`. -/
def targetFit (analysis : EmployeeAnalysis) (targetDepartment : String) : ℚ :=
  ((analysis.departmentFit.lookup targetDepartment).getD 0)

/-- One iteration of the targeted loop: skip a candidate already in the
target department; a failed analysis is caught and the candidate dropped;
otherwise push a proposal with confidence `Math.max(targetFitScore, 0.6)`. -/
def targetedStep (env : BatchEnv) (targetDepartment condition : String)
    (options : AnalysisRequest) (proposals : List TransferProposal)
    (employee : Employee) : List TransferProposal :=
  if employee.department = targetDepartment then proposals
  else
    match env.analyze employee with
    | .error _ => proposals
    | .ok analysis =>
      proposals ++
        [{ employeeId := employee.id
           employeeName := employee.name
           fromDepartment := employee.department
           toDepartment := targetDepartment
           confidenceScore := max (targetFit analysis targetDepartment)
             (0.6 : ℚ)
           reasoning := generateTargetedTransferReasoning env employee
             analysis targetDepartment condition options
           aiModel := "openai" }]

/-- Embeds `generateTargetedTransferProposals`: the sequential loop over the
pre-selected candidates. -/
def generateTargetedTransferProposals (env : BatchEnv)
    (candidates : List Employee) (targetDepartment : String)
    (condition : String) (options : AnalysisRequest) : List TransferProposal :=
  candidates.foldl (targetedStep env targetDepartment condition options) []

/-! ### `refineCandidate` -/

/-- Result record of `refineCandidate`. -/
structure RefineResult where
  refinedCandidates : List Employee
  reasoning : String
  nextQuestions : Option (List String)
  deriving Repr, DecidableEq

/-- Embeds `refineCandidate`: on a parsed reply, keep exactly the current
candidates whose id is among `refinedEmployeeIds`; any error is caught and
the current candidate list is returned unchanged with a fallback reasoning. -/
def refineCandidate (outcome : Except String RefineReply)
    (candidates : List Employee) (_originalCondition _userFeedback : String) :
    RefineResult :=
  match outcome with
  | .error _ =>
    { refinedCandidates := candidates
      reasoning := "フィードバックの処理中にエラーが発生しました。"
      nextQuestions := none }
  | .ok r =>
    let refinedIds := r.refinedEmployeeIds.getD []
    { refinedCandidates := candidates.filter (fun emp => refinedIds.contains emp.id)
      reasoning := r.reasoning.getD "候補者を絞り込みました。"
      nextQuestions := r.nextQuestions }

/-! ### JSON values and `JSON.parse`

`extractJSON` calls `JSON.parse`; we embed a parser of the JSON grammar
(ECMA-404) producing numbers as exact rationals (the idealization of JS
doubles used throughout). Objects follow JS property-assignment semantics:
a duplicate key keeps its first position and takes the last value.
-/

/-- A parsed JSON value. -/
inductive Json where
  | null
  | bool (b : Bool)
  | num (q : ℚ)
  | str (s : String)
  | arr (elems : List Json)
  | obj (fields : List (String × Json))

/-- JS property assignment: overwrite in place or append. -/
def insertField (fields : List (String × Json)) (k : String) (v : Json) :
    List (String × Json) :=
  if fields.any (·.1 = k) then
    fields.map (fun p => if p.1 = k then (k, v) else p)
  else fields ++ [(k, v)]

/-- JS property read on a parsed value (`analysis.departmentFit` etc.). -/
def Json.getField (j : Json) (k : String) : Option Json :=
  match j with
  | .obj fields => fields.lookup k
  | _ => none

/-- JSON insignificant whitespace. -/
def jsonWs (c : Char) : Bool := c = ' ' ∨ c = '\t' ∨ c = '\n' ∨ c = '\r'

/-- Drop JSON whitespace. -/
def skipWs (cs : List Char) : List Char := cs.dropWhile jsonWs

/-- ASCII digit test. -/
def isDigit (c : Char) : Bool := '0' ≤ c ∧ c ≤ '9'

/-- Value of an ASCII digit. -/
def digitVal (c : Char) : ℕ := c.toNat - 48

/-- Split off a maximal run of digits. -/
def takeDigits (cs : List Char) : List Char × List Char :=
  (cs.takeWhile isDigit, cs.dropWhile isDigit)

/-- Decimal value of a digit run. -/
def digitsToNat (ds : List Char) : ℕ :=
  ds.foldl (fun a c => a * 10 + digitVal c) 0

/-- Value of a hex digit. -/
def hexDigit (c : Char) : Option ℕ :=
  if '0' ≤ c ∧ c ≤ '9' then some (c.toNat - 48)
  else if 'a' ≤ c ∧ c ≤ 'f' then some (c.toNat - 87)
  else if 'A' ≤ c ∧ c ≤ 'F' then some (c.toNat - 55)
  else none

/-- JSON string body after the opening quote: returns the decoded characters
and the input following the closing quote. Raw control characters are
rejected; the escapes are those of the JSON grammar. -/
def parseStringChars : List Char → Option (List Char × List Char)
  | '"' :: rest => some ([], rest)
  | '\\' :: '"' :: rest =>
    (parseStringChars rest).map (fun p => ('"' :: p.1, p.2))
  | '\\' :: '\\' :: rest =>
    (parseStringChars rest).map (fun p => ('\\' :: p.1, p.2))
  | '\\' :: '/' :: rest =>
    (parseStringChars rest).map (fun p => ('/' :: p.1, p.2))
  | '\\' :: 'b' :: rest =>
    (parseStringChars rest).map (fun p => (Char.ofNat 8 :: p.1, p.2))
  | '\\' :: 'f' :: rest =>
    (parseStringChars rest).map (fun p => (Char.ofNat 12 :: p.1, p.2))
  | '\\' :: 'n' :: rest =>
    (parseStringChars rest).map (fun p => ('\n' :: p.1, p.2))
  | '\\' :: 'r' :: rest =>
    (parseStringChars rest).map (fun p => ('\r' :: p.1, p.2))
  | '\\' :: 't' :: rest =>
    (parseStringChars rest).map (fun p => ('\t' :: p.1, p.2))
  | '\\' :: 'u' :: a :: b :: c :: d :: rest =>
    match hexDigit a, hexDigit b, hexDigit c, hexDigit d with
    | some ha, some hb, some hc, some hd =>
      (parseStringChars rest).map
        (fun p => (Char.ofNat (((ha * 16 + hb) * 16 + hc) * 16 + hd) :: p.1, p.2))
    | _, _, _, _ => none
  | '\\' :: _ => none
  | c :: rest =>
    if c.toNat < 32 then none
    else (parseStringChars rest).map (fun p => (c :: p.1, p.2))
  | [] => none

/-- JSON number: `-? int frac? exp?`, as the exact rational
`± (ip·10^k + f) · 10^±ex / 10^k` built with `mkRat` (`k` = number of
fraction digits, `f` their value). -/
def parseNumber (cs : List Char) : Option (Json × List Char) :=
  let signed :=
    match cs with
    | '-' :: rest => (true, rest)
    | _ => (false, cs)
  let neg := signed.1
  let cs1 := signed.2
  let intPart :=
    match cs1 with
    | '0' :: rest => some (0, rest)
    | c :: _ =>
      if isDigit c then
        let split := takeDigits cs1
        some (digitsToNat split.1, split.2)
      else none
    | [] => none
  match intPart with
  | none => none
  | some (ip, cs2) =>
    let fracPart :=
      match cs2 with
      | '.' :: rest =>
        match takeDigits rest with
        | ([], _) => none
        | (ds, rest2) => some ((digitsToNat ds, ds.length), rest2)
      | _ => some (((0 : ℕ), (0 : ℕ)), cs2)
    match fracPart with
    | none => none
    | some ((f, k), cs3) =>
      let expPart :=
        match cs3 with
        | e :: rest =>
          if e = 'e' ∨ e = 'E' then
            let esigned :=
              match rest with
              | '+' :: r => (false, r)
              | '-' :: r => (true, r)
              | _ => (false, rest)
            match takeDigits esigned.2 with
            | ([], _) => none
            | (ds, rest3) => some (esigned.1, digitsToNat ds, rest3)
          else some (false, 0, cs3)
        | [] => some (false, 0, cs3)
      match expPart with
      | none => none
      | some (eneg, ex, cs4) =>
        let n : ℕ := (ip * 10 ^ k + f) * (if eneg then 1 else 10 ^ ex)
        let d : ℕ := 10 ^ k * (if eneg then 10 ^ ex else 1)
        some (.num (mkRat (if neg then -(n : ℤ) else (n : ℤ)) d), cs4)

/-- The pending work of the recursive-descent JSON parser: a value, the
remaining elements of an array, or the remaining members of an object. -/
inductive ParseTask where
  | value (cs : List Char)
  | items (cs : List Char) (acc : List Json)
  | members (cs : List Char) (acc : List (String × Json))

/-- Recursive-descent JSON parsing; the fuel only bounds recursion depth and
is chosen large enough by `parseJSON` never to be exhausted on its input
(every recursive call consumes at least one input character). -/
def parseRun : ℕ → ParseTask → Option (Json × List Char)
  | 0, _ => none
  | fuel + 1, .value cs =>
    match skipWs cs with
    | 'n' :: 'u' :: 'l' :: 'l' :: rest => some (.null, rest)
    | 't' :: 'r' :: 'u' :: 'e' :: rest => some (.bool true, rest)
    | 'f' :: 'a' :: 'l' :: 's' :: 'e' :: rest => some (.bool false, rest)
    | '"' :: rest =>
      (parseStringChars rest).map (fun p => (.str (String.mk p.1), p.2))
    | '[' :: rest =>
      match skipWs rest with
      | ']' :: r => some (.arr [], r)
      | _ => parseRun fuel (.items rest [])
    | '{' :: rest =>
      match skipWs rest with
      | '}' :: r => some (.obj [], r)
      | _ => parseRun fuel (.members rest [])
    | other => parseNumber other
  | fuel + 1, .items cs acc =>
    match parseRun fuel (.value cs) with
    | none => none
    | some (v, rest) =>
      match skipWs rest with
      | ',' :: r => parseRun fuel (.items r (acc ++ [v]))
      | ']' :: r => some (.arr (acc ++ [v]), r)
      | _ => none
  | fuel + 1, .members cs acc =>
    match skipWs cs with
    | '"' :: rest =>
      match parseStringChars rest with
      | none => none
      | some (key, rest2) =>
        match skipWs rest2 with
        | ':' :: rest3 =>
          match parseRun fuel (.value rest3) with
          | none => none
          | some (v, rest4) =>
            match skipWs rest4 with
            | ',' :: r => parseRun fuel (.members r (insertField acc (String.mk key) v))
            | '}' :: r => some (.obj (insertField acc (String.mk key) v), r)
            | _ => none
        | _ => none
    | _ => none

/-- Embeds `JSON.parse`: one value, surrounded only by whitespace. -/
def parseJSON (cs : List Char) : Option Json :=
  match parseRun (2 * cs.length + 2) (.value cs) with
  | some (j, rest) => if skipWs rest = [] then some j else none
  | none => none

/-! ### `extractJSON` -/

/-- The backtick character (code-fence marker). -/
def backtickChar : Char := Char.ofNat 96

/-- Fuelled scan for `replace(/BTC BTC BTC json\n?/g, '')` where BTC is a
backtick: remove every occurrence of the json code-fence opener together
with an immediately following newline. Every step consumes at least one
character, so fuel = input length never runs out. -/
def stripJsonFenceAux : ℕ → List Char → List Char
  | 0, cs => cs
  | fuel + 1, cs =>
    match cs with
    | c1 :: c2 :: c3 :: c4 :: c5 :: c6 :: c7 :: rest =>
      if c1 = backtickChar ∧ c2 = backtickChar ∧ c3 = backtickChar ∧
          c4 = 'j' ∧ c5 = 's' ∧ c6 = 'o' ∧ c7 = 'n' then
        match rest with
        | '\n' :: rest2 => stripJsonFenceAux fuel rest2
        | _ => stripJsonFenceAux fuel rest
      else c1 :: stripJsonFenceAux fuel (c2 :: c3 :: c4 :: c5 :: c6 :: c7 :: rest)
    | c :: cs2 => c :: stripJsonFenceAux fuel cs2
    | [] => []

/-- Embeds `content.replace(/BTC BTC BTC json\n?/g, '')`. -/
def stripJsonFence (cs : List Char) : List Char :=
  stripJsonFenceAux cs.length cs

/-- Fuelled scan for the second replacement: remove every bare code-fence
marker together with an immediately following newline. -/
def stripFenceAux : ℕ → List Char → List Char
  | 0, cs => cs
  | fuel + 1, cs =>
    match cs with
    | c1 :: c2 :: c3 :: rest =>
      if c1 = backtickChar ∧ c2 = backtickChar ∧ c3 = backtickChar then
        match rest with
        | '\n' :: rest2 => stripFenceAux fuel rest2
        | _ => stripFenceAux fuel rest
      else c1 :: stripFenceAux fuel (c2 :: c3 :: rest)
    | c :: cs2 => c :: stripFenceAux fuel cs2
    | [] => []

/-- The second replacement of `extractJSON`. -/
def stripFence (cs : List Char) : List Char :=
  stripFenceAux cs.length cs

/-- The cleaned content of `extractJSON`: both replacements, then trim. -/
def cleanedContent (content : String) : List Char :=
  trimChars (stripFence (stripJsonFence content.data))

/-- Embeds `cleanContent.indexOf(LBRACE)` (`none` for −1). -/
def firstBrace (cs : List Char) : Option ℕ := cs.findIdx? (· = '{')

/-- Embeds `cleanContent.lastIndexOf(RBRACE)` (`none` for −1). -/
def lastBrace (cs : List Char) : Option ℕ :=
  (cs.reverse.findIdx? (· = '}')).map (fun i => cs.length - 1 - i)

/-- The error text of `extractJSON` when no brace pair is found, after the
wrapping performed by its `catch` block. -/
def noObjectError : String :=
  "JSONの解析に失敗しました: 有効なJSONオブジェクトが見つかりません"

/-- The wrapped error for a slice `JSON.parse` rejects. The JS engine's
`SyntaxError` text is engine-supplied; we embed it as a fixed marker. -/
def syntaxError : String := "JSONの解析に失敗しました: SyntaxError"

/-- Embeds `extractJSON`: strip fence markers, trim, slice from the first brace to
the last closing brace, and parse the slice; every failure is wrapped by the
surrounding `catch`. -/
def extractJSON (content : String) : Except String Json :=
  let clean := cleanedContent content
  match firstBrace clean, lastBrace clean with
  | some s, some e =>
    if s ≥ e then .error noObjectError
    else
      match parseJSON ((clean.drop s).take (e + 1 - s)) with
      | some j => .ok j
      | none => .error syntaxError
  | _, _ => .error noObjectError

/-! ### `analyzeEmployee` (retry loop) -/

/-- Field `maxRetries` of `AIAnalyzer`. -/
def maxRetries : ℕ := 3

/-- Field `retryDelay` of `AIAnalyzer` (ms). -/
def retryDelayMs : ℕ := 1000

/-- The per-call timeout of `analyzeEmployee` (ms). -/
def timeoutMs : ℕ := 30000

/-- How one provider call settles, were it allowed to run to completion:
a resolved chat completion whose content may be missing (`none`), or a
rejection. -/
inductive CallResult where
  | reply (content : Option String)
  | fail (msg : String)
  deriving Repr, DecidableEq

/-- One attempt's provider behaviour: how long the call takes to settle and
how it settles. -/
structure AttemptBehavior where
  duration : ℕ
  result : CallResult
  deriving Repr, DecidableEq

/-- The `Promise.race` of the provider call against the 30 s timer: the
timer wins (and rejects) whenever the call has not settled strictly before
`timeoutMs`. -/
def raceOutcome (att : AttemptBehavior) : Except String (Option String) :=
  if timeoutMs ≤ att.duration then .error "API呼び出しがタイムアウトしました"
  else
    match att.result with
    | .fail m => .error m
    | .reply c => .ok c

/-- One attempt body of `analyzeEmployee`: race the call, reject falsy
content (`null` or the empty string), then `extractJSON`. -/
def attemptAnalysis (att : AttemptBehavior) : Except String Json :=
  match raceOutcome att with
  | .error m => .error m
  | .ok none => .error "AI分析の応答が空です"
  | .ok (some c) =>
    if c = "" then .error "AI分析の応答が空です" else extractJSON c

/-- Observable effects of the retry loop: a numbered provider attempt, or
the fixed backoff sleep between attempts. -/
inductive Event where
  | modelAttempt (n : ℕ)
  | backoff (ms : ℕ)
  deriving Repr, DecidableEq

/-- The error thrown after the loop exhausts all retries, carrying the last
underlying error's message. -/
def exhaustMessage (e : Employee) (lastError : Option String) : String :=
  "従業員 " ++ e.name ++ " の分析に失敗しました (" ++ toString maxRetries ++
    "回試行): " ++ lastError.getD "不明なエラー"

/-- Embeds `return \x7b employeeId: employee.id, ...analysis \x7d`: the spread of the
parsed object over the seeded `employeeId` property (`extractJSON` only ever
returns objects here, since the parsed slice begins with a brace). -/
def spreadAnalysis (e : Employee) (j : Json) : Json :=
  match j with
  | .obj fields =>
    .obj (fields.foldl (fun acc p => insertField acc p.1 p.2)
      [("employeeId", .str e.id)])
  | _ => .obj [("employeeId", .str e.id)]

/-- The retry loop of `analyzeEmployee` over the remaining attempt numbers,
returning the result together with the trace of attempts and backoff
sleeps. `lastError` carries the most recent failure message. -/
def analyzeAttempts (provider : ℕ → AttemptBehavior) (e : Employee) :
    List ℕ → Option String → Except String Json × List Event
  | [], lastError => (.error (exhaustMessage e lastError), [])
  | n :: rest, _ =>
    match attemptAnalysis (provider n) with
    | .ok j => (.ok (spreadAnalysis e j), [.modelAttempt n])
    | .error m =>
      let next := analyzeAttempts provider e rest (some m)
      (next.1,
        .modelAttempt n ::
          (if rest.isEmpty then next.2 else .backoff retryDelayMs :: next.2))

/-- Embeds `analyzeEmployee`: up to `maxRetries` numbered attempts. -/
def analyzeEmployee (provider : ℕ → AttemptBehavior) (e : Employee) :
    Except String Json × List Event :=
  analyzeAttempts provider e (List.range' 1 maxRetries) none

/-! ### Helper lemmas -/

/-- Per-employee outcome of one batch-loop iteration, as an option. -/
def batchProposalFor (env : BatchEnv) (departments : List Department)
    (options : AnalysisRequest) (e : Employee) : Option TransferProposal :=
  match env.analyze e with
  | .error _ => none
  | .ok a => generateEmployeeTransferProposal env e a departments options

theorem batch_foldl_proposals (env : BatchEnv) (departments : List Department)
    (options : AnalysisRequest) (l : List Employee) :
    ∀ st : BatchState,
      (l.foldl (batchStep env departments options) st).proposals =
        st.proposals ++ l.filterMap (batchProposalFor env departments options) := by
  induction l with
  | nil => intro st; simp
  | cons e t ih =>
    intro st
    rw [List.foldl_cons, ih, List.filterMap_cons]
    cases h : env.analyze e with
    | error m => simp [batchStep, batchProposalFor, h]
    | ok a =>
      cases hp : generateEmployeeTransferProposal env e a departments options with
      | none => simp [batchStep, batchProposalFor, h, hp]
      | some p => simp [batchStep, batchProposalFor, h, hp]

/-- Per-candidate outcome of one targeted-loop iteration, as an option. -/
def targetedProposalFor (env : BatchEnv) (targetDepartment condition : String)
    (options : AnalysisRequest) (e : Employee) : Option TransferProposal :=
  if e.department = targetDepartment then none
  else
    match env.analyze e with
    | .error _ => none
    | .ok analysis =>
      some { employeeId := e.id
             employeeName := e.name
             fromDepartment := e.department
             toDepartment := targetDepartment
             confidenceScore := max (targetFit analysis targetDepartment)
               (0.6 : ℚ)
             reasoning := generateTargetedTransferReasoning env e analysis
               targetDepartment condition options
             aiModel := "openai" }

theorem targeted_foldl (env : BatchEnv) (targetDepartment condition : String)
    (options : AnalysisRequest) (l : List Employee) :
    ∀ acc : List TransferProposal,
      l.foldl (targetedStep env targetDepartment condition options) acc =
        acc ++ l.filterMap (targetedProposalFor env targetDepartment condition options) := by
  induction l with
  | nil => intro acc; simp
  | cons e t ih =>
    intro acc
    rw [List.foldl_cons, ih, List.filterMap_cons]
    by_cases hd : e.department = targetDepartment
    · simp [targetedStep, targetedProposalFor, hd]
    · cases h : env.analyze e with
      | error m => simp [targetedStep, targetedProposalFor, hd, h]
      | ok a => simp [targetedStep, targetedProposalFor, hd, h]

theorem fitDescending_trans (a b c : String × ℚ) (h1 : fitDescending a b)
    (h2 : fitDescending b c) : fitDescending a c := by
  simp only [fitDescending, decide_eq_true_eq] at *
  exact le_trans h2 h1

theorem fitDescending_total (a b : String × ℚ) :
    fitDescending a b || fitDescending b a := by
  simp only [fitDescending]
  by_cases h : b.2 ≤ a.2
  · simp [h]
  · simp [le_of_not_le h]

/-- The head of the descending stable sort is a member achieving the maximal
score. -/
theorem mergeSort_head_max (l : List (String × ℚ)) (x : String × ℚ)
    (rest : List (String × ℚ)) (h : l.mergeSort fitDescending = x :: rest) :
    x ∈ l ∧ ∀ q ∈ l, q.2 ≤ x.2 := by
  have hperm := List.mergeSort_perm l fitDescending
  rw [h] at hperm
  have hmem : x ∈ l := hperm.mem_iff.mp (List.mem_cons_self x rest)
  refine ⟨hmem, fun q hq => ?_⟩
  have hq2 : q ∈ x :: rest := hperm.symm.mem_iff.mp hq
  rcases List.mem_cons.mp hq2 with rfl | hq3
  · exact le_refl _
  · have hs := List.sorted_mergeSort fitDescending_trans fitDescending_total l
    rw [h] at hs
    have hle := (List.pairwise_cons.mp hs).1 q hq3
    simpa [fitDescending, decide_eq_true_eq] using hle

theorem jsRound_intCast (n : ℤ) : jsRound (n : ℚ) = n := by
  unfold jsRound
  rw [Int.floor_int_add]
  norm_num

theorem round2_of_mul_eq (q : ℚ) (n : ℤ) (h : q * 100 = (n : ℚ)) :
    round2 q = (n : ℚ) / 100 := by
  unfold round2
  rw [h, jsRound_intCast]

theorem round2_nonneg (q : ℚ) (h : 0 ≤ q) : 0 ≤ round2 q := by
  unfold round2 jsRound
  have h1 : (0 : ℚ) ≤ q * 100 + 1/2 := by nlinarith
  have h2 : (0 : ℤ) ≤ ⌊q * 100 + 1/2⌋ := Int.floor_nonneg.mpr h1
  positivity

theorem round2_le_one (q : ℚ) (h : q ≤ 1) : round2 q ≤ 1 := by
  unfold round2 jsRound
  have h1 : q * 100 + 1/2 ≤ 100 + 1/2 := by nlinarith
  have h2 : ⌊q * 100 + 1/2⌋ ≤ ⌊(100 : ℚ) + 1/2⌋ := Int.floor_le_floor h1
  have h3 : ⌊(100 : ℚ) + 1/2⌋ = 100 := by
    rw [show ((100 : ℚ) + 1/2) = ((100 : ℤ) : ℚ) + 1/2 by norm_num,
      Int.floor_int_add]
    norm_num
  rw [div_le_one (by norm_num)]
  calc (⌊q * 100 + 1/2⌋ : ℚ) ≤ ((100 : ℤ) : ℚ) := by exact_mod_cast h3 ▸ h2
    _ = 100 := by norm_num

theorem round2_twoDecimals (q : ℚ) : hasTwoDecimals (round2 q) :=
  ⟨jsRound (q * 100), rfl⟩

/-- The qualifying `departmentFit` entries for an employee: departments other
than the current one with fit score strictly above 0.6. -/
def qualifyingFit (employee : Employee) (analysis : EmployeeAnalysis) :
    List (String × ℚ) :=
  analysis.departmentFit.filter
    (fun q => q.1 ≠ employee.department ∧ q.2 > 0.6)

/-- Restates `generateEmployeeTransferProposal` through `qualifyingFit`
(definitional). -/
theorem empProposal_def (env : BatchEnv) (employee : Employee)
    (analysis : EmployeeAnalysis) (departments : List Department)
    (options : AnalysisRequest) :
    generateEmployeeTransferProposal env employee analysis departments options =
      match ((qualifyingFit employee analysis).mergeSort fitDescending).take 3 with
      | [] => none
      | best :: _ =>
        some { employeeId := employee.id
               employeeName := employee.name
               fromDepartment := employee.department
               toDepartment := best.1
               confidenceScore := round2 best.2
               reasoning := generateTransferReasoning env employee analysis
                 employee.department best.1 options
               aiModel := "openai" } := rfl

/-- Structure of `generateEmployeeTransferProposal`: `none` exactly when no
entry qualifies; otherwise the proposal names a qualifying department of
maximal score, with the score rounded to two decimals. -/
theorem empProposal_spec (env : BatchEnv) (employee : Employee)
    (analysis : EmployeeAnalysis) (departments : List Department)
    (options : AnalysisRequest) :
    (generateEmployeeTransferProposal env employee analysis departments options
        = none ↔ qualifyingFit employee analysis = []) ∧
    (∀ p, generateEmployeeTransferProposal env employee analysis departments
        options = some p →
      ∃ s : ℚ, (p.toDepartment, s) ∈ qualifyingFit employee analysis ∧
        p.confidenceScore = round2 s ∧
        (∀ q ∈ qualifyingFit employee analysis, q.2 ≤ s) ∧
        p.employeeId = employee.id ∧ p.employeeName = employee.name ∧
        p.fromDepartment = employee.department ∧
        p.reasoning = generateTransferReasoning env employee analysis
          employee.department p.toDepartment options) := by
  rw [empProposal_def]
  cases hs : (qualifyingFit employee analysis).mergeSort fitDescending with
  | nil =>
    have hperm := List.mergeSort_perm (qualifyingFit employee analysis)
      fitDescending
    rw [hs] at hperm
    have hempty : qualifyingFit employee analysis = [] := hperm.symm.eq_nil
    simp [hempty]
  | cons best rest =>
    have hmax := mergeSort_head_max (qualifyingFit employee analysis) best rest hs
    have hne : qualifyingFit employee analysis ≠ [] := by
      intro h
      rw [h] at hs
      simp at hs
    rw [List.take_succ_cons]
    constructor
    · simp [hne]
    · intro p hp
      have hp2 : _ = p := Option.some.inj hp
      subst hp2
      exact ⟨best.2, hmax.1, rfl, hmax.2, rfl, rfl, rfl, rfl⟩

/-- C3: in batch mode the per-employee step considers exactly the
`departmentFit` entries other than the current department with score
strictly above 0.6 (descending, top 3); an empty candidate set yields no
proposal and no error, and otherwise the top-scoring department is proposed
with confidence equal to its fit score rounded to two decimals. -/
theorem batch_candidate_selection (env : BatchEnv) (employee : Employee)
    (analysis : EmployeeAnalysis) (departments : List Department)
    (options : AnalysisRequest) :
    (generateEmployeeTransferProposal env employee analysis departments options
        = none ↔ qualifyingFit employee analysis = []) ∧
    (∀ p, generateEmployeeTransferProposal env employee analysis departments
        options = some p →
      ∃ s : ℚ, (p.toDepartment, s) ∈ qualifyingFit employee analysis ∧
        p.confidenceScore = round2 s ∧
        (∀ q ∈ qualifyingFit employee analysis, q.2 ≤ s) ∧
        p.employeeId = employee.id ∧ p.employeeName = employee.name ∧
        p.fromDepartment = employee.department) := by
  refine ⟨(empProposal_spec env employee analysis departments options).1,
    fun p hp => ?_⟩
  obtain ⟨s, h1, h2, h3, h4, h5, h6, _⟩ :=
    (empProposal_spec env employee analysis departments options).2 p hp
  exact ⟨s, h1, h2, h3, h4, h5, h6⟩

/-- C2: every proposal produced in batch or targeted mode is for one of the
processed employees and moves it to a department different from that
employee's current department — batch mode excludes the current department
from candidate scoring, targeted mode skips candidates already in the
target department. -/
theorem proposal_changes_department (env : BatchEnv) :
    (∀ (employees : List Employee) (departments : List Department)
        (options : AnalysisRequest) (p : TransferProposal),
      p ∈ (generateTransferProposals env employees departments options).proposals →
      ∃ e ∈ batchTargets env employees options,
        p.employeeId = e.id ∧ p.fromDepartment = e.department ∧
        p.toDepartment ≠ e.department) ∧
    (∀ (candidates : List Employee) (targetDepartment condition : String)
        (options : AnalysisRequest) (p : TransferProposal),
      p ∈ generateTargetedTransferProposals env candidates targetDepartment
          condition options →
      ∃ e ∈ candidates,
        p.employeeId = e.id ∧ p.fromDepartment = e.department ∧
        p.toDepartment ≠ e.department) := by
  constructor
  · intro employees departments options p hp
    unfold generateTransferProposals at hp
    rw [batch_foldl_proposals] at hp
    obtain ⟨e, he, hsome⟩ := List.mem_filterMap.mp hp
    refine ⟨e, he, ?_⟩
    unfold batchProposalFor at hsome
    cases ha : env.analyze e with
    | error m => rw [ha] at hsome; simp at hsome
    | ok a =>
      rw [ha] at hsome
      obtain ⟨s, hmem, _, _, hid, _, hfrom, _⟩ :=
        (empProposal_spec env e a departments options).2 p hsome
      have hq := (List.mem_filter.mp hmem).2
      exact ⟨hid, hfrom, (of_decide_eq_true hq).1⟩
  · intro candidates targetDepartment condition options p hp
    unfold generateTargetedTransferProposals at hp
    rw [targeted_foldl] at hp
    obtain ⟨e, he, hsome⟩ := List.mem_filterMap.mp hp
    refine ⟨e, he, ?_⟩
    unfold targetedProposalFor at hsome
    by_cases hd : e.department = targetDepartment
    · rw [if_pos hd] at hsome; simp at hsome
    · rw [if_neg hd] at hsome
      cases ha : env.analyze e with
      | error m => rw [ha] at hsome; simp at hsome
      | ok a =>
        rw [ha] at hsome
        have hp2 : _ = p := Option.some.inj hsome
        subst hp2
        exact ⟨rfl, rfl, fun hh => hd hh.symm⟩

/-- C6: in targeted mode, a candidate outside the target department whose
analysis succeeds yields a proposal whose confidence is
`max(fit score for the target department, 0.6)`. -/
theorem targeted_confidence_floor (env : BatchEnv) (candidates : List Employee)
    (targetDepartment condition : String) (options : AnalysisRequest)
    (e : Employee) (analysis : EmployeeAnalysis)
    (he : e ∈ candidates) (hd : e.department ≠ targetDepartment)
    (hok : env.analyze e = .ok analysis) :
    ∃ p ∈ generateTargetedTransferProposals env candidates targetDepartment
        condition options,
      p.employeeId = e.id ∧ p.fromDepartment = e.department ∧
      p.toDepartment = targetDepartment ∧
      p.confidenceScore = max (targetFit analysis targetDepartment) (0.6 : ℚ) := by
  unfold generateTargetedTransferProposals
  rw [targeted_foldl]
  have hsome : targetedProposalFor env targetDepartment condition options e =
      some { employeeId := e.id
             employeeName := e.name
             fromDepartment := e.department
             toDepartment := targetDepartment
             confidenceScore := max (targetFit analysis targetDepartment)
               (0.6 : ℚ)
             reasoning := generateTargetedTransferReasoning env e analysis
               targetDepartment condition options
             aiModel := "openai" } := by
    unfold targetedProposalFor
    rw [if_neg hd, hok]
  exact ⟨{ employeeId := e.id
           employeeName := e.name
           fromDepartment := e.department
           toDepartment := targetDepartment
           confidenceScore := max (targetFit analysis targetDepartment)
             (0.6 : ℚ)
           reasoning := generateTargetedTransferReasoning env e analysis
             targetDepartment condition options
           aiModel := "openai" },
    List.mem_filterMap.mpr ⟨e, he, hsome⟩, rfl, rfl, rfl, rfl⟩

/-- C7: when the per-employee analysis fails for every employee, the batch
returns no proposals and no successes, counts every failure, and does not
throw (the loop state is the total result). -/
theorem batch_all_failures (env : BatchEnv) (employees : List Employee)
    (departments : List Department) (options : AnalysisRequest)
    (hids : options.employeeIds = none)
    (hcond : options.naturalLanguageCondition = none)
    (hfail : ∀ e ∈ employees, ∃ m, env.analyze e = .error m) :
    generateTransferProposals env employees departments options =
      ⟨[], 0, employees.length⟩ := by
  have htargets : batchTargets env employees options = employees := by
    unfold batchTargets idFiltered
    rw [hids, hcond]
  unfold generateTransferProposals
  rw [htargets]
  suffices h : ∀ l : List Employee, (∀ e ∈ l, ∃ m, env.analyze e = .error m) →
      ∀ st : BatchState, l.foldl (batchStep env departments options) st =
        ⟨st.proposals, st.successCount, st.errorCount + l.length⟩ by
    rw [h employees hfail ⟨[], 0, 0⟩]
    simp
  intro l
  induction l with
  | nil => intro _ st; simp
  | cons e t ih =>
    intro hl st
    obtain ⟨m, hm⟩ := hl e (List.mem_cons_self e t)
    rw [List.foldl_cons,
      show batchStep env departments options st e =
        { st with errorCount := st.errorCount + 1 } by
          unfold batchStep; rw [hm],
      ih (fun x hx => hl x (List.mem_cons_of_mem e hx))]
    congr 1
    simp only [List.length_cons]
    omega

/-- C8: `refineCandidate` only ever returns employees drawn from the
candidate list it was given, for any model outcome (including failures);
in particular, when that candidate list came from
`findCandidatesWithCondition` over a roster, every refined candidate is in
the roster. -/
theorem refine_no_new_candidates (outcome : Except String RefineReply)
    (candidates : List Employee) (originalCondition userFeedback : String)
    (e : Employee)
    (he : e ∈ (refineCandidate outcome candidates originalCondition
      userFeedback).refinedCandidates) :
    e ∈ candidates ∧
      ∀ (searchOutcome : Except String CandReply) (roster : List Employee)
        (departments : List Department) (condition : String) (r : CandResult),
        findCandidatesWithCondition searchOutcome roster departments condition
          = .ok r →
        candidates = r.candidates → e ∈ roster := by
  have hmem : e ∈ candidates := by
    unfold refineCandidate at he
    cases outcome with
    | error m => exact he
    | ok reply => exact (List.mem_filter.mp he).1
  refine ⟨hmem, fun searchOutcome roster departments condition r hok hcand => ?_⟩
  unfold findCandidatesWithCondition at hok
  cases searchOutcome with
  | error m => simp at hok
  | ok reply =>
    have hr : _ = r := Except.ok.inj hok
    rw [hcand, ← hr] at hmem
    exact (List.mem_filter.mp hmem).1

/-- C10: when the natural-language pre-filter's model call fails, the batch
silently proceeds over the entire id-filtered employee set, exactly as if no
condition had been given. -/
theorem condition_filter_failure_ignored (env : BatchEnv)
    (employees : List Employee) (departments : List Department)
    (options : AnalysisRequest) (c m : String)
    (hcond : options.naturalLanguageCondition = some c)
    (hc : trimChars c.data ≠ [])
    (herr : env.candOutcome = .error m) :
    batchTargets env employees options = idFiltered employees options ∧
    generateTransferProposals env employees departments options =
      generateTransferProposals env employees departments
        { options with naturalLanguageCondition := none } := by
  have h1 : batchTargets env employees options = idFiltered employees options := by
    unfold batchTargets
    rw [hcond]
    show (if trimChars c.data ≠ [] then
        filterEmployeesByCondition env.candOutcome (idFiltered employees options) c
      else idFiltered employees options) = idFiltered employees options
    rw [if_pos hc]
    unfold filterEmployeesByCondition findCandidatesWithCondition
    rw [herr]
  refine ⟨h1, ?_⟩
  unfold generateTransferProposals
  rw [h1]
  have h2 : batchTargets env employees
      { options with naturalLanguageCondition := none } =
      idFiltered employees options := by
    unfold batchTargets
    rfl
  rw [h2]
  rfl

/-! ### Concrete fixtures -/

/-- A fixture employee in 営業部. -/
def empA : Employee :=
  { id := "E1", name := "山田", department := "営業部", position := "主任",
    personality := "", experience := "", aspirations := "", skills := [],
    relationships := "" }

/-- An analysis whose model-provided fit for 開発部 is the out-of-range 1.5. -/
def analysisHigh : EmployeeAnalysis :=
  { employeeId := "E1", personalityTraits := [], skillCategories := [],
    careerGoals := [], strengths := [], developmentAreas := [],
    departmentFit := [("開発部", (1.5 : ℚ))] }

/-- An analysis whose fit for 開発部 is 0.625 (three decimal places). -/
def analysisMid : EmployeeAnalysis :=
  { analysisHigh with departmentFit := [("開発部", (0.625 : ℚ))] }

/-- An environment whose analyses always return `analysisHigh`. -/
def envHigh : BatchEnv :=
  { analyze := fun _ => .ok analysisHigh,
    reasoningReply := fun _ _ => .ok none,
    candOutcome := .error "unused" }

/-- An environment whose analyses always return `analysisMid`. -/
def envMid : BatchEnv :=
  { envHigh with analyze := fun _ => .ok analysisMid }

/-- C1 fails on the code: with the out-of-range model fit 1.5, batch mode
produces confidence 1.5 > 1 (no clamping); with fit 0.625, targeted mode
produces confidence 0.625, which is not an exact two-decimal value (no
rounding in targeted mode). -/
theorem confidence_claim_counterexample :
    (∃ p ∈ (generateTransferProposals envHigh [empA] []
        ⟨none, none, none⟩).proposals,
      p.confidenceScore = 3/2 ∧ ¬ p.confidenceScore ≤ 1) ∧
    (∃ p ∈ generateTargetedTransferProposals envMid [empA] "開発部" ""
        ⟨none, none, none⟩,
      p.confidenceScore = 5/8 ∧ ¬ hasTwoDecimals p.confidenceScore) := by
  constructor
  · have hfilter : qualifyingFit empA analysisHigh = [("開発部", (1.5 : ℚ))] := by
      unfold qualifyingFit analysisHigh empA
      norm_num [List.filter_cons]
      decide
    have hprop := empProposal_def envHigh empA analysisHigh [] ⟨none, none, none⟩
    rw [hfilter, List.mergeSort_singleton] at hprop
    have hprop2 : generateEmployeeTransferProposal envHigh empA analysisHigh []
        ⟨none, none, none⟩ =
        some { employeeId := empA.id
               employeeName := empA.name
               fromDepartment := empA.department
               toDepartment := "開発部"
               confidenceScore := round2 (1.5 : ℚ)
               reasoning := generateTransferReasoning envHigh empA analysisHigh
                 empA.department "開発部" ⟨none, none, none⟩
               aiModel := "openai" } := by
      rw [hprop]
      rfl
    have hconf : round2 (1.5 : ℚ) = 3/2 := by
      rw [round2_of_mul_eq (1.5 : ℚ) 150 (by norm_num)]
      norm_num
    refine ⟨{ employeeId := empA.id
              employeeName := empA.name
              fromDepartment := empA.department
              toDepartment := "開発部"
              confidenceScore := round2 (1.5 : ℚ)
              reasoning := generateTransferReasoning envHigh empA analysisHigh
                empA.department "開発部" ⟨none, none, none⟩
              aiModel := "openai" }, ?_, hconf, ?_⟩
    · show _ ∈ (generateTransferProposals envHigh [empA] []
        ⟨none, none, none⟩).proposals
      unfold generateTransferProposals
      rw [batch_foldl_proposals]
      refine List.mem_filterMap.mpr ⟨empA, List.mem_cons_self _ _, ?_⟩
      unfold batchProposalFor
      show (match envHigh.analyze empA with
        | .error _ => none
        | .ok a => generateEmployeeTransferProposal envHigh empA a []
            ⟨none, none, none⟩) = _
      rw [show envHigh.analyze empA = .ok analysisHigh from rfl]
      exact hprop2
    · show ¬ round2 (1.5 : ℚ) ≤ 1
      rw [hconf]
      norm_num
  · have hsome : targetedProposalFor envMid "開発部" "" ⟨none, none, none⟩ empA =
        some { employeeId := empA.id
               employeeName := empA.name
               fromDepartment := empA.department
               toDepartment := "開発部"
               confidenceScore := max (targetFit analysisMid "開発部") (0.6 : ℚ)
               reasoning := generateTargetedTransferReasoning envMid empA
                 analysisMid "開発部" "" ⟨none, none, none⟩
               aiModel := "openai" } := by
      unfold targetedProposalFor
      rw [if_neg (by decide : ¬ empA.department = "開発部")]
      rfl
    have hfit : targetFit analysisMid "開発部" = (0.625 : ℚ) := by
      unfold targetFit analysisMid analysisHigh
      simp
    have hconf : max (targetFit analysisMid "開発部") (0.6 : ℚ) = 5/8 := by
      rw [hfit, max_eq_left (by norm_num)]
      norm_num
    refine ⟨{ employeeId := empA.id
              employeeName := empA.name
              fromDepartment := empA.department
              toDepartment := "開発部"
              confidenceScore := max (targetFit analysisMid "開発部") (0.6 : ℚ)
              reasoning := generateTargetedTransferReasoning envMid empA
                analysisMid "開発部" "" ⟨none, none, none⟩
              aiModel := "openai" }, ?_, hconf, ?_⟩
    · show _ ∈ generateTargetedTransferProposals envMid [empA] "開発部" ""
        ⟨none, none, none⟩
      unfold generateTargetedTransferProposals
      rw [targeted_foldl]
      exact List.mem_filterMap.mpr ⟨empA, List.mem_cons_self _ _, hsome⟩
    · show ¬ hasTwoDecimals (max (targetFit analysisMid "開発部") (0.6 : ℚ))
      rw [hconf]
      rintro ⟨n, hn⟩
      have h8 : (n : ℚ) * 8 = 500 := by
        field_simp at hn
        linarith
      have h8' : n * 8 = 500 := by exact_mod_cast h8
      omega

/-- C1(amended): provided every model-provided fit score lies in [0, 1],
every batch-mode proposal's confidence lies in [0, 1] and is rounded to
exactly two decimal places, while every targeted-mode proposal's confidence
lies in [0.6, 1] (hence in [0, 1]) but is `max(fit, 0.6)` without rounding. -/
theorem confidence_bounds_amended (env : BatchEnv)
    (hfit : ∀ e a, env.analyze e = .ok a → ∀ q ∈ a.departmentFit,
      0 ≤ q.2 ∧ q.2 ≤ 1) :
    (∀ (employees : List Employee) (departments : List Department)
        (options : AnalysisRequest) (p : TransferProposal),
      p ∈ (generateTransferProposals env employees departments options).proposals →
      0 ≤ p.confidenceScore ∧ p.confidenceScore ≤ 1 ∧
        hasTwoDecimals p.confidenceScore) ∧
    (∀ (candidates : List Employee) (targetDepartment condition : String)
        (options : AnalysisRequest) (p : TransferProposal),
      p ∈ generateTargetedTransferProposals env candidates targetDepartment
          condition options →
      (0.6 : ℚ) ≤ p.confidenceScore ∧ p.confidenceScore ≤ 1) := by
  constructor
  · intro employees departments options p hp
    unfold generateTransferProposals at hp
    rw [batch_foldl_proposals] at hp
    obtain ⟨e, he, hsome⟩ := List.mem_filterMap.mp hp
    unfold batchProposalFor at hsome
    cases ha : env.analyze e with
    | error m => rw [ha] at hsome; simp at hsome
    | ok a =>
      rw [ha] at hsome
      obtain ⟨s, hmem, hconf, _, _, _, _, _⟩ :=
        (empProposal_spec env e a departments options).2 p hsome
      have hmem2 : (p.toDepartment, s) ∈ a.departmentFit :=
        (List.mem_filter.mp hmem).1
      obtain ⟨hs0, hs1⟩ := hfit e a ha _ hmem2
      rw [hconf]
      exact ⟨round2_nonneg s hs0, round2_le_one s hs1, round2_twoDecimals s⟩
  · intro candidates targetDepartment condition options p hp
    unfold generateTargetedTransferProposals at hp
    rw [targeted_foldl] at hp
    obtain ⟨e, he, hsome⟩ := List.mem_filterMap.mp hp
    unfold targetedProposalFor at hsome
    by_cases hd : e.department = targetDepartment
    · rw [if_pos hd] at hsome; simp at hsome
    · rw [if_neg hd] at hsome
      cases ha : env.analyze e with
      | error m => rw [ha] at hsome; simp at hsome
      | ok a =>
        rw [ha] at hsome
        have hp2 : _ = p := Option.some.inj hsome
        subst hp2
        refine ⟨le_max_right _ _, max_le ?_ (by norm_num)⟩
        unfold targetFit
        cases hl : a.departmentFit.lookup targetDepartment with
        | none =>
          simp only [Option.getD_none]
          norm_num
        | some v =>
          simp only [Option.getD_some]
          have hv : (targetDepartment, v) ∈ a.departmentFit := by
            obtain ⟨l₁, l₂, heq, _⟩ := List.lookup_eq_some_iff.mp hl
            rw [heq]
            exact List.mem_append.mpr (Or.inr (List.mem_cons_self _ _))
          exact (hfit e a ha _ hv).2

/-- Restates `extractJSON` through `cleanedContent` (definitional). -/
theorem extractJSON_def (content : String) :
    extractJSON content =
      match firstBrace (cleanedContent content),
          lastBrace (cleanedContent content) with
      | some s, some e =>
        if s ≥ e then .error noObjectError
        else
          match parseJSON (((cleanedContent content).drop s).take (e + 1 - s)) with
          | some j => .ok j
          | none => .error syntaxError
      | _, _ => .error noObjectError := rfl

/-- C5: `extractJSON` strips fence markers, trims, slices from the first
opening brace to the last closing brace and parses that slice; it succeeds
exactly when both braces exist, the first opening brace comes strictly
before the last closing brace, and the slice is valid JSON. A fenced object
is recovered; brace-free text fails; `\x7ba:1\x7d\x7bb:2\x7d` is sliced
whole (first `\x7b` to last `\x7d`) and fails as invalid JSON. -/
theorem extractJSON_behavior :
    (∀ (content : String) (j : Json),
      extractJSON content = .ok j ↔
        ∃ s e, firstBrace (cleanedContent content) = some s ∧
          lastBrace (cleanedContent content) = some e ∧ s < e ∧
          parseJSON (((cleanedContent content).drop s).take (e + 1 - s))
            = some j) ∧
    extractJSON "prefix ```json\n\x7b\"a\":1\x7d\n``` suffix" =
      .ok (.obj [("a", .num 1)]) ∧
    extractJSON "no braces at all" = .error noObjectError ∧
    extractJSON "\x7ba:1\x7d\x7bb:2\x7d" = .error syntaxError := by
  refine ⟨?_, rfl, rfl, rfl⟩
  intro content j
  rw [extractJSON_def]
  cases hf : firstBrace (cleanedContent content) with
  | none =>
    constructor
    · intro h; exact absurd h (by simp)
    · rintro ⟨s, e', hs, _⟩
      exact absurd hs (by simp)
  | some s =>
    cases hl : lastBrace (cleanedContent content) with
    | none =>
      constructor
      · intro h; exact absurd h (by simp)
      · rintro ⟨s', e', _, he', _⟩
        exact absurd he' (by simp)
    | some e' =>
      show (if s ≥ e' then (.error noObjectError : Except String Json)
        else match parseJSON (((cleanedContent content).drop s).take
            (e' + 1 - s)) with
          | some j => .ok j
          | none => .error syntaxError) = .ok j ↔ _
      by_cases hse : s ≥ e'
      · rw [if_pos hse]
        constructor
        · intro h; exact absurd h (by simp)
        · rintro ⟨s', e'', hs', he'', hlt, _⟩
          have h1 : s' = s := (Option.some.inj hs').symm
          have h2 : e'' = e' := (Option.some.inj he'').symm
          subst h1; subst h2
          omega
      · rw [if_neg hse]
        cases hp : parseJSON (((cleanedContent content).drop s).take
            (e' + 1 - s)) with
        | some j' =>
          constructor
          · intro h
            have hj : j' = j := Except.ok.inj h
            subst hj
            exact ⟨s, e', rfl, rfl, by omega, hp⟩
          · rintro ⟨s', e'', hs', he'', hlt, hp'⟩
            have h1 : s' = s := (Option.some.inj hs').symm
            have h2 : e'' = e' := (Option.some.inj he'').symm
            subst h1; subst h2
            rw [hp] at hp'
            rw [Option.some.inj hp']
        | none =>
          constructor
          · intro h; exact absurd h (by simp)
          · rintro ⟨s', e'', hs', he'', hlt, hp'⟩
            have h1 : s' = s := (Option.some.inj hs').symm
            have h2 : e'' = e' := (Option.some.inj he'').symm
            subst h1; subst h2
            rw [hp] at hp'
            exact absurd hp' (by simp)

/-- C4: `analyzeEmployee` makes at most 3 attempts (`maxRetries = 3`), each
raced against the fixed 30 s timeout, sleeping the fixed 1 s backoff between
consecutive attempts; a first-attempt success returns at once, two failures
followed by a success return the successful analysis, and three failures
throw an error carrying the last underlying error's message. -/
theorem analyzeEmployee_retry_policy (provider : ℕ → AttemptBehavior)
    (e : Employee) :
    (maxRetries = 3 ∧ timeoutMs = 30000 ∧ retryDelayMs = 1000) ∧
    ((analyzeEmployee provider e).2 = [.modelAttempt 1] ∨
     (analyzeEmployee provider e).2 =
       [.modelAttempt 1, .backoff 1000, .modelAttempt 2] ∨
     (analyzeEmployee provider e).2 =
       [.modelAttempt 1, .backoff 1000, .modelAttempt 2, .backoff 1000,
        .modelAttempt 3]) ∧
    (∀ n, timeoutMs ≤ (provider n).duration →
      attemptAnalysis (provider n) =
        .error "API呼び出しがタイムアウトしました") ∧
    (∀ j, attemptAnalysis (provider 1) = .ok j →
      analyzeEmployee provider e =
        (.ok (spreadAnalysis e j), [.modelAttempt 1])) ∧
    (∀ m1 m2 j, attemptAnalysis (provider 1) = .error m1 →
      attemptAnalysis (provider 2) = .error m2 →
      attemptAnalysis (provider 3) = .ok j →
      analyzeEmployee provider e =
        (.ok (spreadAnalysis e j),
         [.modelAttempt 1, .backoff 1000, .modelAttempt 2, .backoff 1000,
          .modelAttempt 3])) ∧
    (∀ m1 m2 m3, attemptAnalysis (provider 1) = .error m1 →
      attemptAnalysis (provider 2) = .error m2 →
      attemptAnalysis (provider 3) = .error m3 →
      analyzeEmployee provider e =
        (.error (exhaustMessage e (some m3)),
         [.modelAttempt 1, .backoff 1000, .modelAttempt 2, .backoff 1000,
          .modelAttempt 3])) := by
  have hrange : List.range' 1 maxRetries = [1, 2, 3] := rfl
  refine ⟨⟨rfl, rfl, rfl⟩, ?_, ?_, ?_, ?_, ?_⟩
  · cases h1 : attemptAnalysis (provider 1) with
    | ok j =>
      left
      simp [analyzeEmployee, hrange, analyzeAttempts, h1]
    | error m1 =>
      cases h2 : attemptAnalysis (provider 2) with
      | ok j =>
        right; left
        simp [analyzeEmployee, hrange, analyzeAttempts, h1, h2, retryDelayMs]
      | error m2 =>
        cases h3 : attemptAnalysis (provider 3) with
        | ok j =>
          right; right
          simp [analyzeEmployee, hrange, analyzeAttempts, h1, h2, h3,
            retryDelayMs]
        | error m3 =>
          right; right
          simp [analyzeEmployee, hrange, analyzeAttempts, h1, h2, h3,
            retryDelayMs]
  · intro n hn
    unfold attemptAnalysis raceOutcome
    rw [if_pos hn]
  · intro j h1
    simp [analyzeEmployee, hrange, analyzeAttempts, h1]
  · intro m1 m2 j h1 h2 h3
    simp [analyzeEmployee, hrange, analyzeAttempts, h1, h2, h3, retryDelayMs]
  · intro m1 m2 m3 h1 h2 h3
    simp [analyzeEmployee, hrange, analyzeAttempts, h1, h2, h3, retryDelayMs]

/-- C9(amended): `analyzeEmployee` performs no semantic validation of the
extracted object: whenever the first attempt's reply is non-empty and its
extraction succeeds, the analysis succeeds and returns the spread object
as-is, whether or not a `departmentFit` member is present. -/
theorem no_departmentFit_validation (provider : ℕ → AttemptBehavior)
    (e : Employee) (c : String) (j : Json)
    (hrace : raceOutcome (provider 1) = .ok (some c)) (hc : c ≠ "")
    (hext : extractJSON c = .ok j) :
    (analyzeEmployee provider e).1 = .ok (spreadAnalysis e j) := by
  have h1 : attemptAnalysis (provider 1) = .ok j := by
    unfold attemptAnalysis
    rw [hrace]
    show (if c = "" then .error "AI分析の応答が空です" else extractJSON c) = _
    rw [if_neg hc]
    exact hext
  have hrange : List.range' 1 maxRetries = [1, 2, 3] := rfl
  simp [analyzeEmployee, hrange, analyzeAttempts, h1]

/-- A provider whose call resolves immediately with a JSON object lacking
`departmentFit`. -/
def providerNoFit : ℕ → AttemptBehavior :=
  fun _ => { duration := 0, result := .reply (some "\x7b\"foo\":1\x7d") }

/-- C9 fails on the code: a reply whose extracted object has no
`departmentFit` mapping still makes `analyzeEmployee` succeed on the first
attempt — the attempt does not fail, and nothing feeds the retry loop. -/
theorem departmentFit_validation_counterexample :
    analyzeEmployee providerNoFit empA =
      (.ok (.obj [("employeeId", .str "E1"), ("foo", .num 1)]),
       [.modelAttempt 1]) ∧
    (Json.obj [("employeeId", .str "E1"), ("foo", .num 1)]).getField
      "departmentFit" = none :=
  ⟨rfl, rfl⟩

/-! ### Witness fixtures -/

/-- An analysis whose fit for 開発部 is only 0.3. -/
def analysisLow : EmployeeAnalysis :=
  { analysisHigh with departmentFit := [("開発部", (0.3 : ℚ))] }

/-- An environment whose analyses always return `analysisLow`. -/
def envLow : BatchEnv :=
  { envHigh with analyze := fun _ => .ok analysisLow }

/-- An environment where every model call fails. -/
def envFail : BatchEnv :=
  { analyze := fun _ => .error "provider down",
    reasoningReply := fun _ _ => .error "provider down",
    candOutcome := .error "provider down" }

/-- A provider failing on the first two attempts and succeeding on the
third with an empty JSON object. -/
def providerFlaky : ℕ → AttemptBehavior :=
  fun n =>
    if n = 3 then { duration := 0, result := .reply (some "\x7b\x7d") }
    else { duration := 0, result := .fail "boom" }

/-- Every fit score produced by `envMid` lies in [0, 1]. -/
theorem fit_bounds_mid : ∀ e a, envMid.analyze e = .ok a →
    ∀ q ∈ a.departmentFit, 0 ≤ q.2 ∧ q.2 ≤ 1 := by
  intro e a ha q hq
  rw [show envMid.analyze e = .ok analysisMid from rfl] at ha
  obtain rfl : analysisMid = a := Except.ok.inj ha
  have hq2 : q = ("開発部", (0.625 : ℚ)) := by
    simpa [analysisMid, analysisHigh] using hq
  rw [hq2]
  constructor <;> norm_num

/-- The proposal produced for `empA` by the targeted run over `envMid`. -/
def proposalMid : TransferProposal :=
  { employeeId := empA.id
    employeeName := empA.name
    fromDepartment := empA.department
    toDepartment := "開発部"
    confidenceScore := max (targetFit analysisMid "開発部") (0.6 : ℚ)
    reasoning := generateTargetedTransferReasoning envMid empA analysisMid
      "開発部" "" ⟨none, none, none⟩
    aiModel := "openai" }

theorem proposalMid_mem :
    proposalMid ∈ generateTargetedTransferProposals envMid [empA] "開発部" ""
      ⟨none, none, none⟩ := by
  unfold generateTargetedTransferProposals
  rw [targeted_foldl]
  refine List.mem_filterMap.mpr ⟨empA, List.mem_cons_self _ _, ?_⟩
  unfold targetedProposalFor proposalMid
  rw [if_neg (by decide : ¬ empA.department = "開発部")]
  rfl

/-- The proposal produced for `empA` by the batch per-employee step over
`envMid`. -/
def proposalMidBatch : TransferProposal :=
  { employeeId := empA.id
    employeeName := empA.name
    fromDepartment := empA.department
    toDepartment := "開発部"
    confidenceScore := round2 (0.625 : ℚ)
    reasoning := generateTransferReasoning envMid empA analysisMid
      empA.department "開発部" ⟨none, none, none⟩
    aiModel := "openai" }

theorem empProposal_mid :
    generateEmployeeTransferProposal envMid empA analysisMid []
      ⟨none, none, none⟩ = some proposalMidBatch := by
  have hfilter : qualifyingFit empA analysisMid = [("開発部", (0.625 : ℚ))] := by
    unfold qualifyingFit analysisMid analysisHigh empA
    norm_num [List.filter_cons]
    decide
  have hprop := empProposal_def envMid empA analysisMid [] ⟨none, none, none⟩
  rw [hfilter, List.mergeSort_singleton] at hprop
  rw [hprop]
  rfl

/-! ### Witnesses -/

theorem confidence_bounds_amended_witness :
    (0.6 : ℚ) ≤ proposalMid.confidenceScore ∧ proposalMid.confidenceScore ≤ 1 :=
  (confidence_bounds_amended envMid fit_bounds_mid).2 [empA] "開発部" ""
    ⟨none, none, none⟩ proposalMid proposalMid_mem

theorem proposal_changes_department_witness :
    ∃ e ∈ [empA], proposalMid.employeeId = e.id ∧
      proposalMid.fromDepartment = e.department ∧
      proposalMid.toDepartment ≠ e.department :=
  (proposal_changes_department envMid).2 [empA] "開発部" "" ⟨none, none, none⟩
    proposalMid proposalMid_mem

theorem batch_candidate_selection_witness :
    ∃ s : ℚ, (proposalMidBatch.toDepartment, s) ∈ qualifyingFit empA analysisMid ∧
      proposalMidBatch.confidenceScore = round2 s ∧
      (∀ q ∈ qualifyingFit empA analysisMid, q.2 ≤ s) ∧
      proposalMidBatch.employeeId = empA.id ∧
      proposalMidBatch.employeeName = empA.name ∧
      proposalMidBatch.fromDepartment = empA.department :=
  (batch_candidate_selection envMid empA analysisMid [] ⟨none, none, none⟩).2
    proposalMidBatch empProposal_mid

theorem analyzeEmployee_retry_policy_witness :
    analyzeEmployee providerFlaky empA =
      (.ok (spreadAnalysis empA (.obj [])),
       [.modelAttempt 1, .backoff 1000, .modelAttempt 2, .backoff 1000,
        .modelAttempt 3]) :=
  (analyzeEmployee_retry_policy providerFlaky empA).2.2.2.2.1 "boom" "boom"
    (.obj []) rfl rfl rfl

theorem extractJSON_behavior_witness :
    ∃ s e,
      firstBrace (cleanedContent "prefix ```json\n\x7b\"a\":1\x7d\n``` suffix")
        = some s ∧
      lastBrace (cleanedContent "prefix ```json\n\x7b\"a\":1\x7d\n``` suffix")
        = some e ∧
      s < e ∧
      parseJSON (((cleanedContent
        "prefix ```json\n\x7b\"a\":1\x7d\n``` suffix").drop s).take (e + 1 - s))
        = some (.obj [("a", .num 1)]) :=
  (extractJSON_behavior.1 "prefix ```json\n\x7b\"a\":1\x7d\n``` suffix"
    (.obj [("a", .num 1)])).mp extractJSON_behavior.2.1

theorem targeted_confidence_floor_witness :
    (∃ p ∈ generateTargetedTransferProposals envLow [empA] "開発部" ""
        ⟨none, none, none⟩,
      p.employeeId = empA.id ∧ p.fromDepartment = empA.department ∧
      p.toDepartment = "開発部" ∧
      p.confidenceScore = max (targetFit analysisLow "開発部") (0.6 : ℚ)) ∧
    max (targetFit analysisLow "開発部") (0.6 : ℚ) = 0.6 ∧
    (0.6 : ℚ) ≠ 0.3 :=
  ⟨targeted_confidence_floor envLow [empA] "開発部" "" ⟨none, none, none⟩ empA
      analysisLow (List.mem_cons_self _ _) (by decide) rfl,
    by
      rw [show targetFit analysisLow "開発部" = (0.3 : ℚ) by
        simp [targetFit, analysisLow, analysisHigh]]
      rw [max_eq_right (by norm_num)],
    by norm_num⟩

theorem batch_all_failures_witness :
    generateTransferProposals envFail [empA] [] ⟨none, none, none⟩ =
      ⟨[], 0, 1⟩ :=
  batch_all_failures envFail [empA] [] ⟨none, none, none⟩ rfl rfl
    (fun _ _ => ⟨"provider down", rfl⟩)

theorem refine_no_new_candidates_witness : empA ∈ [empA] :=
  (refine_no_new_candidates (.ok ⟨some ["E1"], none, none⟩) [empA] "条件"
    "絞り込み" empA (by decide)).1

theorem no_departmentFit_validation_witness :
    (analyzeEmployee providerNoFit empA).1 =
      .ok (spreadAnalysis empA (.obj [("foo", .num 1)])) :=
  no_departmentFit_validation providerNoFit empA "\x7b\"foo\":1\x7d"
    (.obj [("foo", .num 1)]) rfl (by decide) rfl

theorem condition_filter_failure_ignored_witness :
    batchTargets envFail [empA] ⟨none, some "営業経験", none⟩ =
      idFiltered [empA] ⟨none, some "営業経験", none⟩ ∧
    generateTransferProposals envFail [empA] [] ⟨none, some "営業経験", none⟩ =
      generateTransferProposals envFail [empA] []
        { (⟨none, some "営業経験", none⟩ : AnalysisRequest) with
            naturalLanguageCondition := none } :=
  condition_filter_failure_ignored envFail [empA] []
    ⟨none, some "営業経験", none⟩ "営業経験" "provider down" rfl (by decide) rfl

end Disperse
